import Mathlib

/-!
Verification development for the whack-a-mole pirate battle game
(reference implementation `pirate-final.py`).

The embedding models the Round Controller (class `HardwareThread`), the
shared Battle Model (`ENEMY_FLEET`, `PLAYER_FORTRESS` and the functions
operating on them) and the presentation consumer's event handling from
`main()`.  Wall-clock times, player-health snapshots, fleet snapshots,
random indices and polled input batches are inputs to the step functions,
since in the program they come from `time.time()`, the shared globals,
`random.randint` and `dev.read()` respectively.  The thread-safe FIFO
`queue.Queue` is modelled as the list of events in production order
(`put` appends on the right, the consumer folds over the list from the
left), which is exactly the FIFO contract of the library queue.

Events additionally carry a ghost generation tag `gen`: each spawned
target is numbered by the order of its spawn, and every
escaped/hit/miss event records the generation of the active target it
refers to.  The tag is pure instrumentation — erasing it recovers the
dictionaries the program puts on the queue.
-/

/-- Constant `NUM_LIGHTS = 9`. -/
def NUM_LIGHTS : ℕ := 9

/-- Constant `GAME_DURATION = 30.0`. -/
def GAME_DURATION : ℚ := 30

/-- Constant `MOLE_DURATION = 1.0`. -/
def MOLE_DURATION : ℚ := 1

/-- Constant `ecodes.EV_KEY` (key-event type code). -/
def EV_KEY : ℕ := 1

/-- Constant `ecodes.KEY_5`, the designated start button code. -/
def KEY_5 : ℕ := 5

/-- The dictionary `KEY_TO_LIGHT_INDEX`: key codes `KEY_1 .. KEY_9`
(codes 1..9) map to light indices 0..8; any other code is absent. -/
def KEY_TO_LIGHT_INDEX (code : ℕ) : Option ℕ :=
  if 1 ≤ code ∧ code ≤ 9 then some (code - 1) else none

/-- One ship of `ENEMY_FLEET` (class `EnemyShip`), without the
pygame sprite fields, which carry no game state. -/
structure EnemyShip where
  name : String
  max_health : ℤ
  current_health : ℤ
  is_destroyed : Bool
deriving DecidableEq

/-- Method `EnemyShip.take_damage`: decrement health if not destroyed, mark
destroyed once health is ≤ 0, and return the status string the method
returns (`None` when already destroyed). -/
def take_damage (s : EnemyShip) : EnemyShip × Option String :=
  if !s.is_destroyed then
    let h := s.current_health - 1
    if h ≤ 0 then
      ({ s with current_health := h, is_destroyed := true }, some "SHIP_DESTROYED")
    else
      ({ s with current_health := h }, some "SHIP_HIT")
  else (s, none)

/-- Table `SHIP_DATA` (names and max HP; sprite paths are presentation only). -/
def SHIP_DATA : List (String × ℤ) :=
  [("Sloop", 5), ("Brigantine", 10), ("Frigate", 15),
   ("Man-of-War", 15), ("Dreadnought (Boss)", 5)]

/-- Shared battle state: `ENEMY_FLEET` plus `PLAYER_FORTRESS`
(`health`, `max_health`). -/
structure BattleState where
  fleet : List EnemyShip
  player_health : ℚ
  player_max_health : ℚ
deriving DecidableEq

/-- Ship construction inside `initialize_fleet_structure`: a fresh ship from
`SHIP_DATA` at full health; with `PLAYER_FORTRESS = 10/10`. -/
def freshShip (p : String × ℤ) : EnemyShip :=
  { name := p.1, max_health := p.2, current_health := p.2,
    is_destroyed := false }

/-- The global state at process start: the fleet built from `SHIP_DATA`
at full health, `PLAYER_FORTRESS = 10/10`. -/
def initialBattle : BattleState :=
  { fleet := SHIP_DATA.map freshShip,
    player_health := 10,
    player_max_health := 10 }

/-- Function `reset_game_for_new_round`: if the fleet is empty, return at once
(the player is then not reset either); otherwise restore every ship to
full health with the destroyed flag cleared and restore player health. -/
def reset_game_for_new_round (b : BattleState) : BattleState :=
  if b.fleet = [] then b
  else
    { b with
      fleet := b.fleet.map (fun s =>
        { s with current_health := s.max_health, is_destroyed := false }),
      player_health := b.player_max_health }

/-- Function `get_current_target_ship`: the first ship in fleet order that is not
yet destroyed, `none` if all are destroyed. -/
def get_current_target_ship (fleet : List EnemyShip) : Option EnemyShip :=
  fleet.find? (fun s => !s.is_destroyed)

/-- Apply `take_damage` to the current target ship (the consumer calls
`current_ship.take_damage()` where `current_ship =
get_current_target_ship()`, mutating that ship in place). -/
def damageFirstAlive : List EnemyShip → List EnemyShip
  | [] => []
  | s :: rest =>
    if !s.is_destroyed then (take_damage s).1 :: rest
    else s :: damageFirstAlive rest

/-- The events the controller puts on the queue, with their payloads.
`gen` is the ghost generation tag described in the header. -/
inductive GEvent where
  | startScreen : GEvent
  | countdownFinished : GEvent
  | moleSpawn (index : ℕ) (gen : ℕ) : GEvent
  | moleEscaped (gen : ℕ) : GEvent
  | playerHit (score : ℚ) (gen : ℕ) : GEvent
  | playerMiss (score : ℚ) (gen : ℕ) : GEvent
  | gameOver (score : ℚ) : GEvent
deriving DecidableEq

/-- One evdev input event as the controller reads it: `event.type`,
`event.value` (1 = key down) and `event.code`. -/
structure InputEvent where
  etype : ℕ
  value : ℕ
  code : ℕ
deriving DecidableEq

/-- Test `event.type == ecodes.EV_KEY and event.value == 1`. -/
def isKeyDown (e : InputEvent) : Bool :=
  e.etype = EV_KEY ∧ e.value = 1

/-- The controller's per-round mutable state (fields of `HardwareThread`
that carry game state), plus the ghost generation counters. -/
structure CtrlState where
  is_available : Bool
  score : ℚ
  active_mole_light_index : Option ℕ
  last_mole_time : ℚ
  game_start_time : ℚ
  activeGen : ℕ
  nextGen : ℕ
deriving DecidableEq

/-- Method `HardwareThread.spawn_next_mole`: pick the supplied random index
(`random.randint(0, NUM_LIGHTS - 1)`), make it the active mole, stamp
`last_mole_time`, and emit `MOLE_SPAWN`.  The LED calls touch no game
state. -/
def spawn_next_mole (st : CtrlState) (now : ℚ) (randIdx : ℕ) :
    CtrlState × List GEvent :=
  ({ st with
      active_mole_light_index := some randIdx,
      last_mole_time := now,
      activeGen := st.nextGen,
      nextGen := st.nextGen + 1 },
   [GEvent.moleSpawn randIdx st.nextGen])

/-- Processing of a single polled input event inside the ACTIVE loop:
on a button-down whose code maps to the active light, increment the
score, emit `PLAYER_HIT`, and respawn inline; on a button-down mapping
to any other light, floor-decrement the score by 0.5, emit
`PLAYER_MISS`, and respawn inline; everything else is ignored.
`rands` is the stream of pending random indices. -/
def processButtonEvent (st : CtrlState) (now : ℚ) (rands : List ℕ)
    (e : InputEvent) : CtrlState × List ℕ × List GEvent :=
  if isKeyDown e then
    match st.active_mole_light_index, KEY_TO_LIGHT_INDEX e.code with
    | some m, some pressed =>
      if pressed = m then
        let st1 := { st with score := st.score + 1 }
        let sp := spawn_next_mole st1 now (rands.headD 0)
        (sp.1, rands.tail, GEvent.playerHit st1.score st.activeGen :: sp.2)
      else
        let st1 := { st with score := max 0 (st.score - 1/2) }
        let sp := spawn_next_mole st1 now (rands.headD 0)
        (sp.1, rands.tail, GEvent.playerMiss st1.score st.activeGen :: sp.2)
    | _, _ => (st, rands, [])
  else (st, rands, [])

/-- The `for event in self.dev.read()` loop of the ACTIVE phase: every
event of the batch is processed, in arrival order (no break). -/
def processButtonEvents (st : CtrlState) (now : ℚ) (rands : List ℕ) :
    List InputEvent → CtrlState × List ℕ × List GEvent
  | [] => (st, rands, [])
  | e :: es =>
    let r1 := processButtonEvent st now rands e
    let r2 := processButtonEvents r1.1 now r1.2.1 es
    (r2.1, r2.2.1, r1.2.2 ++ r2.2.2)

/-- Result of one iteration of the inner (ACTIVE phase) loop: either the
round-end `break`, or the new controller state, the remaining random
stream, and the events emitted this iteration. -/
inductive IterResult where
  | ended : IterResult
  | cont (st : CtrlState) (rands : List ℕ) (evs : List GEvent) : IterResult
deriving DecidableEq

/-- The round-end condition of the ACTIVE loop, checked first each
iteration: `time_elapsed >= GAME_DURATION or PLAYER_FORTRESS['health']
<= 0 or get_current_target_ship() is None`. -/
def roundEndCheck (st : CtrlState) (now playerHealth : ℚ)
    (fleet : List EnemyShip) : Prop :=
  now - st.game_start_time ≥ GAME_DURATION ∨ playerHealth ≤ 0 ∨
    get_current_target_ship fleet = none

instance (st : CtrlState) (now ph : ℚ) (fleet : List EnemyShip) :
    Decidable (roundEndCheck st now ph fleet) := by
  unfold roundEndCheck; infer_instance

/-- The mole timer/spawn step of the ACTIVE loop: if no mole is active,
or the active mole was lit for longer than `MOLE_DURATION`, emit
`MOLE_ESCAPED` for the active mole (if any) and spawn the next one;
otherwise no change. -/
def moleTimerStep (st : CtrlState) (now : ℚ) (rands : List ℕ) :
    CtrlState × List ℕ × List GEvent :=
  if st.active_mole_light_index = none ∨
      now - st.last_mole_time > MOLE_DURATION then
    let esc : List GEvent :=
      match st.active_mole_light_index with
      | some _ => [GEvent.moleEscaped st.activeGen]
      | none => []
    let sp := spawn_next_mole st now (rands.headD 0)
    (sp.1, rands.tail, esc ++ sp.2)
  else (st, rands, [])

/-- One iteration of the ACTIVE inner loop of `HardwareThread.run`:
round-end check first; then the mole timer/spawn step; then input
processing, which runs only when hardware is available, and where a
failed read (`polled = none`, i.e. the caught `IOError` /
`BlockingIOError` / `AttributeError`) contributes nothing. -/
def innerIter (st : CtrlState) (now playerHealth : ℚ)
    (fleet : List EnemyShip) (rands : List ℕ)
    (polled : Option (List InputEvent)) : IterResult :=
  if roundEndCheck st now playerHealth fleet then .ended
  else
    let timer := moleTimerStep st now rands
    if st.is_available then
      match polled with
      | some batch =>
        let r := processButtonEvents timer.1 now timer.2.1 batch
        .cont r.1 r.2.1 (timer.2.2 ++ r.2.2)
      | none => .cont timer.1 timer.2.1 timer.2.2
    else .cont timer.1 timer.2.1 timer.2.2

/-- The per-iteration environment of the ACTIVE loop: the wall clock,
the snapshots of the shared battle state the controller reads, and the
result of this iteration's `dev.read()` (`none` = the read raised). -/
structure IterInput where
  now : ℚ
  playerHealth : ℚ
  fleet : List EnemyShip
  polled : Option (List InputEvent)

/-- Run the ACTIVE inner loop over a list of per-iteration inputs,
stopping at the round-end `break`; returns the final controller state,
the unused random indices, and the full event trace in FIFO production
order. -/
def runRound (st : CtrlState) (rands : List ℕ) :
    List IterInput → CtrlState × List ℕ × List GEvent
  | [] => (st, rands, [])
  | i :: is =>
    match innerIter st i.now i.playerHealth i.fleet rands i.polled with
    | .ended => (st, rands, [])
    | .cont st1 r1 evs1 =>
      let rest := runRound st1 r1 is
      (rest.1, rest.2.1, evs1 ++ rest.2.2)

/-- The controller state at entry to the ACTIVE loop: score zeroed and
active mole cleared at the top of `run`'s outer loop, round start
timestamp just recorded; the ghost counters start at 0. -/
def initialCtrl (avail : Bool) (t0 : ℚ) : CtrlState :=
  { is_available := avail, score := 0, active_mole_light_index := none,
    last_mole_time := 0, game_start_time := t0,
    activeGen := 0, nextGen := 0 }

/-- One poll of the wait-for-start loop: `start_pressed` becomes true
exactly when the batch contains a key-down of `KEY_5` (the loop breaks
at the first such event); a failed read (`none`) leaves it false. -/
def startPollStep (polled : Option (List InputEvent)) : Bool :=
  match polled with
  | some batch => batch.any (fun e => isKeyDown e && e.code = KEY_5)
  | none => false

/-- One poll of the wait-for-acknowledgement loop after `GAME_OVER`:
the body counts **one** key-down and then breaks out of the batch, so a
batch containing any key-down (of any code) adds exactly 1 to
`keys_pressed`, and the rest of that batch is discarded; a failed read
adds nothing. -/
def ackPollStep (polled : Option (List InputEvent)) (keys_pressed : ℕ) : ℕ :=
  match polled with
  | some batch => if batch.any isKeyDown then keys_pressed + 1 else keys_pressed
  | none => keys_pressed

/-- The `while keys_pressed < keys_needed` loop with `keys_needed = 2`,
run over a list of successive poll results. -/
def ackLoop (keys_pressed : ℕ) : List (Option (List InputEvent)) → ℕ
  | [] => keys_pressed
  | p :: ps =>
    if keys_pressed < 2 then ackLoop (ackPollStep p keys_pressed) ps
    else keys_pressed

/-- The presentation consumer's handling of one queue event in `main()`
(battle-state part; sprite/effect creation carries no game state):
`PLAYER_HIT` damages the current target ship and heals the player by
0.5 capped at max, guarded by the target existing; `PLAYER_MISS` and
`MOLE_ESCAPED` damage the player by 1 floored at 0, guarded by the
target existing and player health being positive. -/
def consumeEvent (b : BattleState) (ev : GEvent) : BattleState :=
  match ev with
  | .playerHit _ _ =>
    match get_current_target_ship b.fleet with
    | some _ =>
      { b with
        fleet := damageFirstAlive b.fleet,
        player_health := min (b.player_health + 1/2) b.player_max_health }
    | none => b
  | .playerMiss _ _ =>
    match get_current_target_ship b.fleet with
    | some _ =>
      if b.player_health > 0 then
        { b with player_health := max 0 (b.player_health - 1) }
      else b
    | none => b
  | .moleEscaped _ =>
    match get_current_target_ship b.fleet with
    | some _ =>
      if b.player_health > 0 then
        { b with player_health := max 0 (b.player_health - 1) }
      else b
    | none => b
  | _ => b

/-- The consumer drains the queue in FIFO order, one event at a time. -/
def consumeList (b : BattleState) : List GEvent → BattleState
  | [] => b
  | e :: es => consumeList (consumeEvent b e) es

/-- Python's `int()` on a rational: truncation toward zero. -/
def pyInt (q : ℚ) : ℤ :=
  if 0 ≤ q then ⌊q⌋ else ⌈q⌉

/-- The consumer's `GAME_OVER` handler: `last_game_score =
int(event.get('score', 0))`; other events leave it unchanged. -/
def gameOverScore (ev : GEvent) (last_game_score : ℤ) : ℤ :=
  match ev with
  | .gameOver s => pyInt s
  | _ => last_game_score

/-- The battle states reachable during play: the initial structure, and
anything obtained by consuming events (presentation loop) or by the
controller's start-of-round reset. -/
inductive ReachableBattle : BattleState → Prop where
  | init : ReachableBattle initialBattle
  | consume (b : BattleState) (ev : GEvent) :
      ReachableBattle b → ReachableBattle (consumeEvent b ev)
  | reset (b : BattleState) :
      ReachableBattle b → ReachableBattle (reset_game_for_new_round b)

/-! ## General helper lemmas about the controller loop -/

theorem innerIter_ended_iff (st : CtrlState) (now ph : ℚ)
    (fleet : List EnemyShip) (rands : List ℕ)
    (polled : Option (List InputEvent)) :
    innerIter st now ph fleet rands polled = .ended ↔
      roundEndCheck st now ph fleet := by
  unfold innerIter
  rcases em (roundEndCheck st now ph fleet) with h | h
  · rw [if_pos h]
    simp [h]
  · rw [if_neg h]
    refine iff_of_false ?_ h
    intro hc
    by_cases ha : st.is_available <;> rcases polled with _ | batch <;>
      simp [ha] at hc

theorem runRound_cons_of_end (st : CtrlState) (rands : List ℕ)
    (i : IterInput) (is : List IterInput)
    (h : roundEndCheck st i.now i.playerHealth i.fleet) :
    runRound st rands (i :: is) = (st, rands, []) := by
  unfold runRound
  rw [(innerIter_ended_iff st i.now i.playerHealth i.fleet rands i.polled).mpr h]

/-! ## C1 -/

/-- C1: on every iteration of the ACTIVE inner loop the round-end check
is evaluated before mole spawning and input handling: the iteration ends
the ACTIVE phase exactly when elapsed time is at least the fixed round
duration of 30.0 seconds, or player health is ≤ 0, or no non-destroyed
ship remains; and when that check holds the loop breaks at once — the
controller state is unchanged (no target spawned), the random stream is
unconsumed, and no event is emitted and no input processed for the rest
of the round. -/
theorem c1_round_end_priority (st : CtrlState) (now ph : ℚ)
    (fleet : List EnemyShip) (rands : List ℕ)
    (polled : Option (List InputEvent)) (i : IterInput)
    (is : List IterInput) :
    (innerIter st now ph fleet rands polled = .ended ↔
      (now - st.game_start_time ≥ 30 ∨ ph ≤ 0 ∨
        get_current_target_ship fleet = none)) ∧
    (roundEndCheck st i.now i.playerHealth i.fleet →
      runRound st rands (i :: is) = (st, rands, [])) := by
  constructor
  · rw [innerIter_ended_iff]
    exact Iff.rfl
  · exact runRound_cons_of_end st rands i is

/-- Closed instance of `c1_round_end_priority`: with 31 seconds elapsed
the round ends with nothing spawned, nothing consumed, nothing emitted. -/
theorem c1_round_end_priority_witness :
    runRound (initialCtrl true 0) [3]
        [{ now := 31, playerHealth := 10, fleet := initialBattle.fleet,
           polled := some [{ etype := 1, value := 1, code := 1 }] }] =
      (initialCtrl true 0, [3], []) :=
  (c1_round_end_priority (initialCtrl true 0) 31 10 initialBattle.fleet [3]
      none
      { now := 31, playerHealth := 10, fleet := initialBattle.fleet,
        polled := some [{ etype := 1, value := 1, code := 1 }] } []).2
    (by
      left
      norm_num [initialCtrl, GAME_DURATION])

/-! ## C7 -/

/-- Normalize the availability flag away, to compare the game-state
evolution of the two hardware modes. -/
def stripAvail (st : CtrlState) : CtrlState := { st with is_available := true }

/-- Availability-normalized view of an iteration result. -/
def IterResult.strip : IterResult → IterResult
  | .ended => .ended
  | .cont st r e => .cont (stripAvail st) r e

/-- A failed read contributes exactly nothing to the ACTIVE iteration. -/
theorem innerIter_none_eq_empty (st : CtrlState) (now ph : ℚ)
    (fleet : List EnemyShip) (rands : List ℕ) :
    innerIter st now ph fleet rands none =
      innerIter st now ph fleet rands (some []) := by
  unfold innerIter
  rcases em (roundEndCheck st now ph fleet) with h | h
  · rw [if_pos h, if_pos h]
  · rw [if_neg h, if_neg h]
    by_cases ha : st.is_available <;> simp [ha, processButtonEvents]

/-- Unavailable hardware: the poll result is ignored entirely. -/
theorem innerIter_unavailable_ignores_poll (st : CtrlState) (now ph : ℚ)
    (fleet : List EnemyShip) (rands : List ℕ)
    (polled : Option (List InputEvent)) (hna : st.is_available = false) :
    innerIter st now ph fleet rands polled =
      innerIter st now ph fleet rands none := by
  unfold innerIter
  rcases em (roundEndCheck st now ph fleet) with h | h
  · rw [if_pos h, if_pos h]
  · rw [if_neg h, if_neg h]
    rcases polled with _ | batch <;> simp [hna]

theorem spawn_next_mole_avail (st : CtrlState) (now : ℚ) (r : ℕ) :
    (spawn_next_mole st now r).1.is_available = st.is_available := rfl

theorem processButtonEvent_avail (st : CtrlState) (now : ℚ) (rands : List ℕ)
    (e : InputEvent) :
    (processButtonEvent st now rands e).1.is_available = st.is_available := by
  unfold processButtonEvent
  by_cases hk : isKeyDown e
  · rw [if_pos hk]
    rcases hm : st.active_mole_light_index with _ | m <;>
      rcases hp : KEY_TO_LIGHT_INDEX e.code with _ | p <;> simp [spawn_next_mole]
    split <;> rfl
  · rw [if_neg hk]

theorem processButtonEvents_avail (now : ℚ) :
    ∀ (batch : List InputEvent) (st : CtrlState) (rands : List ℕ),
    (processButtonEvents st now rands batch).1.is_available =
      st.is_available := by
  intro batch
  induction batch with
  | nil => intro st rands; rfl
  | cons e es ih =>
    intro st rands
    show (processButtonEvents (processButtonEvent st now rands e).1 now
        (processButtonEvent st now rands e).2.1 es).1.is_available = _
    rw [ih, processButtonEvent_avail]


theorem moleTimerStep_avail (st : CtrlState) (now : ℚ) (rands : List ℕ) :
    (moleTimerStep st now rands).1.is_available = st.is_available := by
  unfold moleTimerStep
  split <;> rfl

/-- Shape of a non-ending iteration that processes no input (hardware
unavailable, or the read failed). -/
theorem innerIter_eq_no_input (st : CtrlState) (now ph : ℚ)
    (fleet : List EnemyShip) (rands : List ℕ)
    (polled : Option (List InputEvent))
    (h : ¬ roundEndCheck st now ph fleet)
    (hni : st.is_available = false ∨ polled = none) :
    innerIter st now ph fleet rands polled =
      .cont (moleTimerStep st now rands).1 (moleTimerStep st now rands).2.1
        (moleTimerStep st now rands).2.2 := by
  unfold innerIter
  rw [if_neg h]
  rcases hni with hni | hni
  · simp [hni]
  · subst hni
    by_cases ha : st.is_available <;> simp [ha]

/-- Shape of a non-ending iteration with an available, successful read. -/
theorem innerIter_eq_input (st : CtrlState) (now ph : ℚ)
    (fleet : List EnemyShip) (rands : List ℕ) (batch : List InputEvent)
    (h : ¬ roundEndCheck st now ph fleet) (ha : st.is_available = true) :
    innerIter st now ph fleet rands (some batch) =
      .cont (processButtonEvents (moleTimerStep st now rands).1 now
          (moleTimerStep st now rands).2.1 batch).1
        (processButtonEvents (moleTimerStep st now rands).1 now
          (moleTimerStep st now rands).2.1 batch).2.1
        ((moleTimerStep st now rands).2.2 ++
          (processButtonEvents (moleTimerStep st now rands).1 now
            (moleTimerStep st now rands).2.1 batch).2.2) := by
  unfold innerIter
  rw [if_neg h]
  simp [ha]

/-- The ACTIVE loop body never writes the availability flag. -/
theorem innerIter_avail_preserved (st : CtrlState) (now ph : ℚ)
    (fleet : List EnemyShip) (rands : List ℕ)
    (polled : Option (List InputEvent)) (st' : CtrlState) (r' : List ℕ)
    (evs : List GEvent)
    (hc : innerIter st now ph fleet rands polled = .cont st' r' evs) :
    st'.is_available = st.is_available := by
  rcases em (roundEndCheck st now ph fleet) with h | h
  · rw [(innerIter_ended_iff st now ph fleet rands polled).mpr h] at hc
    exact absurd hc (by simp)
  · by_cases ha : st.is_available
    · rcases polled with _ | batch
      · rw [innerIter_eq_no_input st now ph fleet rands none h (Or.inr rfl)]
          at hc
        injection hc with h1 h2 h3
        rw [← h1, moleTimerStep_avail]
      · rw [innerIter_eq_input st now ph fleet rands batch h ha] at hc
        injection hc with h1 h2 h3
        rw [← h1, processButtonEvents_avail, moleTimerStep_avail]
    · rw [innerIter_eq_no_input st now ph fleet rands polled h
        (Or.inl (by simpa using ha))] at hc
      injection hc with h1 h2 h3
      rw [← h1, moleTimerStep_avail]

/-- Unavailable mode evolves exactly like available mode with failing
reads, up to the availability flag. -/
theorem innerIter_unavailable_strip (st : CtrlState) (now ph : ℚ)
    (fleet : List EnemyShip) (rands : List ℕ)
    (polled : Option (List InputEvent)) :
    (innerIter { st with is_available := false } now ph fleet rands
        polled).strip =
      (innerIter { st with is_available := true } now ph fleet rands
        none).strip := by
  rcases em (roundEndCheck st now ph fleet) with h | h
  · have hF : roundEndCheck { st with is_available := false } now ph fleet := h
    have hT : roundEndCheck { st with is_available := true } now ph fleet := h
    rw [(innerIter_ended_iff _ now ph fleet rands polled).mpr hF,
      (innerIter_ended_iff _ now ph fleet rands none).mpr hT]
  · have hF : ¬ roundEndCheck { st with is_available := false } now ph fleet := h
    have hT : ¬ roundEndCheck { st with is_available := true } now ph fleet := h
    rw [innerIter_eq_no_input _ now ph fleet rands polled hF (Or.inl rfl),
      innerIter_eq_no_input _ now ph fleet rands none hT (Or.inr rfl)]
    simp only [IterResult.strip, moleTimerStep, spawn_next_mole, stripAvail]
    split <;> rfl

/-- C7: (i) a hardware read failure during ACTIVE polling is exactly a
poll with no events; (ii) a poll failure never ends the round — only the
round-end check does; (iii) the ACTIVE loop body never writes the
availability flag, which is decided once in `__init__`; (iv) with
hardware unavailable the poll is skipped entirely; (v) the unavailable
controller evolves exactly like the available one whose reads all fail,
up to the availability flag itself; (vi) in the wait-for-start and
wait-for-acknowledgement phases a failed read behaves exactly like a
poll with no events, so every phase progresses the same way in both
modes. -/
theorem c7_hardware_failure_semantics (st : CtrlState) (now ph : ℚ)
    (fleet : List EnemyShip) (rands : List ℕ)
    (polled : Option (List InputEvent)) (k : ℕ) :
    (innerIter st now ph fleet rands none =
      innerIter st now ph fleet rands (some [])) ∧
    (¬ roundEndCheck st now ph fleet →
      innerIter st now ph fleet rands polled ≠ .ended) ∧
    (∀ st' r' evs, innerIter st now ph fleet rands polled = .cont st' r' evs →
      st'.is_available = st.is_available) ∧
    (st.is_available = false →
      innerIter st now ph fleet rands polled =
        innerIter st now ph fleet rands none) ∧
    ((innerIter { st with is_available := false } now ph fleet rands
        polled).strip =
      (innerIter { st with is_available := true } now ph fleet rands
        none).strip) ∧
    (startPollStep none = startPollStep (some []) ∧
      ackPollStep none k = ackPollStep (some []) k) := by
  refine ⟨?_, ?_, ?_, ?_, ?_, ?_, ?_⟩
  · exact innerIter_none_eq_empty st now ph fleet rands
  · intro h hc
    exact h ((innerIter_ended_iff st now ph fleet rands polled).mp hc)
  · intro st' r' evs hc
    exact innerIter_avail_preserved st now ph fleet rands polled st' r' evs hc
  · exact innerIter_unavailable_ignores_poll st now ph fleet rands polled
  · exact innerIter_unavailable_strip st now ph fleet rands polled
  · rfl
  · simp [ackPollStep]

/-- Closed instance of `c7_hardware_failure_semantics` at a concrete
state, discharging its hypotheses: a failed poll neither ends the round
nor flips the availability flag. -/
theorem c7_hardware_failure_semantics_witness :
    innerIter (initialCtrl true 0) 1 10 initialBattle.fleet [2] none ≠
        .ended ∧
      ∀ st' r' evs,
        innerIter (initialCtrl true 0) 1 10 initialBattle.fleet [2] none =
          .cont st' r' evs → st'.is_available = true := by
  have h := c7_hardware_failure_semantics (initialCtrl true 0) 1 10
    initialBattle.fleet [2] none 0
  refine ⟨h.2.1 ?_, fun st' r' evs hc => h.2.2.1 st' r' evs hc⟩
  intro hend
  rcases hend with hend | hend | hend
  · norm_num [initialCtrl, GAME_DURATION] at hend
  · norm_num at hend
  · simp [initialBattle, get_current_target_ship, SHIP_DATA, freshShip]
      at hend

/-! ## C8 -/

/-- Whether a poll result contains at least one button-down event. -/
def pollHasDown (p : Option (List InputEvent)) : Bool :=
  (p.getD []).any isKeyDown

theorem ackLoop_min (polls : List (Option (List InputEvent))) :
    ∀ k : ℕ, k ≤ 2 →
      ackLoop k polls = min 2 (k + polls.countP pollHasDown) := by
  induction polls with
  | nil =>
    intro k hk
    simp [ackLoop, Nat.min_eq_right hk]
  | cons p ps ih =>
    intro k hk
    rw [ackLoop]
    by_cases hlt : k < 2
    · rw [if_pos hlt]
      have hstep : ackPollStep p k = k + (if pollHasDown p then 1 else 0) := by
        rcases p with _ | batch
        · simp [ackPollStep, pollHasDown]
        · simp only [ackPollStep, pollHasDown, Option.getD]
          split <;> simp
      rw [hstep, ih (k + (if pollHasDown p then 1 else 0))
        (by split <;> omega), List.countP_cons]
      split <;> omega
    · rw [if_neg hlt]
      have hk2 : k = 2 := by omega
      subst hk2
      omega

/-- Counterexample to C8 as stated: a single poll batch containing two
button-down events advances the acknowledgement count by only 1, not 2
— the second qualifying press of the batch is discarded by the `break`,
so after observing 2 button-down events the controller has not
proceeded to the new round. -/
theorem c8_multi_press_discarded :
    (([{ etype := 1, value := 1, code := 3 },
       { etype := 1, value := 1, code := 4 }] :
        List InputEvent).countP isKeyDown = 2) ∧
    ackLoop 0
        [some [{ etype := 1, value := 1, code := 3 },
               { etype := 1, value := 1, code := 4 }]] = 1 ∧
    (1 : ℕ) ≠ 2 := by
  refine ⟨by decide, by decide, by decide⟩

/-- C8 (amended): after `GAME_OVER`, each poll contributes at most one
acknowledgement count — a batch counts exactly 1 if it contains any
button-down event (of any key code; no specific key is required) and 0
otherwise, the remaining events of a counted batch being discarded —
and the controller proceeds to the new round exactly when 2 polls
containing a button-down have been observed. -/
theorem c8_ack_two_polls (batch : List InputEvent) (k : ℕ)
    (polls : List (Option (List InputEvent))) :
    (batch.any isKeyDown = true → ackPollStep (some batch) k = k + 1) ∧
    (batch.any isKeyDown = false → ackPollStep (some batch) k = k) ∧
    (ackLoop 0 polls = min 2 (polls.countP pollHasDown)) ∧
    (ackLoop 0 polls = 2 ↔ 2 ≤ polls.countP pollHasDown) := by
  have hmin := ackLoop_min polls 0 (by omega)
  refine ⟨?_, ?_, by simpa using hmin, ?_⟩
  · intro h
    simp [ackPollStep, h]
  · intro h
    simp [ackPollStep, h]
  · rw [hmin]
    omega

/-- Closed instance of `c8_ack_two_polls`: two single-press polls reach
the acknowledgement count of 2 and the loop proceeds. -/
theorem c8_ack_two_polls_witness :
    ackPollStep (some [{ etype := 1, value := 1, code := 7 }]) 0 = 1 ∧
    ackLoop 0
        [some [{ etype := 1, value := 1, code := 7 }],
         some [{ etype := 1, value := 1, code := 2 }]] = 2 := by
  have h := c8_ack_two_polls [{ etype := 1, value := 1, code := 7 }] 0
    [some [{ etype := 1, value := 1, code := 7 }],
     some [{ etype := 1, value := 1, code := 2 }]]
  exact ⟨h.1 (by decide), (h.2.2.2).mpr (by decide)⟩

/-! ## C2 -/

theorem spawn_next_mole_score (st : CtrlState) (now : ℚ) (r : ℕ) :
    (spawn_next_mole st now r).1.score = st.score := rfl

theorem processButtonEvent_score_nonneg (st : CtrlState) (now : ℚ)
    (rands : List ℕ) (e : InputEvent) (h : 0 ≤ st.score) :
    0 ≤ (processButtonEvent st now rands e).1.score := by
  unfold processButtonEvent
  by_cases hk : isKeyDown e
  · rw [if_pos hk]
    rcases st.active_mole_light_index with _ | m <;>
      rcases KEY_TO_LIGHT_INDEX e.code with _ | p <;>
      simp only [spawn_next_mole]
    · exact h
    · exact h
    · exact h
    · split
      · simpa using by positivity
      · exact le_max_left 0 _
  · rw [if_neg hk]
    exact h

theorem processButtonEvents_score_nonneg (now : ℚ) :
    ∀ (batch : List InputEvent) (st : CtrlState) (rands : List ℕ),
      0 ≤ st.score → 0 ≤ (processButtonEvents st now rands batch).1.score := by
  intro batch
  induction batch with
  | nil => intro st rands h; exact h
  | cons e es ih =>
    intro st rands h
    exact ih _ _ (processButtonEvent_score_nonneg st now rands e h)

theorem moleTimerStep_score (st : CtrlState) (now : ℚ) (rands : List ℕ) :
    (moleTimerStep st now rands).1.score = st.score := by
  unfold moleTimerStep
  split <;> rfl

theorem innerIter_score_nonneg (st : CtrlState) (now ph : ℚ)
    (fleet : List EnemyShip) (rands : List ℕ)
    (polled : Option (List InputEvent)) (st' : CtrlState) (r' : List ℕ)
    (evs : List GEvent)
    (hc : innerIter st now ph fleet rands polled = .cont st' r' evs)
    (h : 0 ≤ st.score) : 0 ≤ st'.score := by
  rcases em (roundEndCheck st now ph fleet) with hend | hend
  · rw [(innerIter_ended_iff st now ph fleet rands polled).mpr hend] at hc
    exact absurd hc (by simp)
  · have htimer : 0 ≤ (moleTimerStep st now rands).1.score := by
      rw [moleTimerStep_score]; exact h
    by_cases ha : st.is_available
    · rcases polled with _ | batch
      · rw [innerIter_eq_no_input st now ph fleet rands none hend
          (Or.inr rfl)] at hc
        injection hc with h1 h2 h3
        rw [← h1]; exact htimer
      · rw [innerIter_eq_input st now ph fleet rands batch hend ha] at hc
        injection hc with h1 h2 h3
        rw [← h1]
        exact processButtonEvents_score_nonneg now batch _ _ htimer
    · rw [innerIter_eq_no_input st now ph fleet rands polled hend
        (Or.inl (by simpa using ha))] at hc
      injection hc with h1 h2 h3
      rw [← h1]; exact htimer

theorem runRound_score_nonneg :
    ∀ (inputs : List IterInput) (st : CtrlState) (rands : List ℕ),
      0 ≤ st.score → 0 ≤ (runRound st rands inputs).1.score := by
  intro inputs
  induction inputs with
  | nil => intro st rands h; exact h
  | cons i is ih =>
    intro st rands h
    rw [runRound]
    rcases hc : innerIter st i.now i.playerHealth i.fleet rands i.polled with
      _ | ⟨st1, r1, evs1⟩
    · exact h
    · exact ih st1 r1
        (innerIter_score_nonneg st i.now i.playerHealth i.fleet rands
          i.polled st1 r1 evs1 hc h)

/-- C2: for every button-down processed in the ACTIVE phase while a
target is active, a press mapping to the active index adds exactly 1 to
the score and a press mapping to a different index replaces the score
by max 0 (score − 1/2); presses while no target is active are ignored;
a poll batch is processed event by event in arrival order; and the
score stays non-negative through input processing and through the whole
round. -/
theorem c2_score_rules (st : CtrlState) (now : ℚ) (rands : List ℕ)
    (e : InputEvent) (es : List InputEvent) (m p : ℕ)
    (inputs : List IterInput) :
    (isKeyDown e = true → st.active_mole_light_index = some m →
      KEY_TO_LIGHT_INDEX e.code = some m →
      (processButtonEvent st now rands e).1.score = st.score + 1) ∧
    (isKeyDown e = true → st.active_mole_light_index = some m →
      KEY_TO_LIGHT_INDEX e.code = some p → p ≠ m →
      (processButtonEvent st now rands e).1.score =
        max 0 (st.score - 1/2)) ∧
    (st.active_mole_light_index = none →
      processButtonEvent st now rands e = (st, rands, [])) ∧
    (processButtonEvents st now rands (e :: es) =
      ((processButtonEvents (processButtonEvent st now rands e).1 now
          (processButtonEvent st now rands e).2.1 es).1,
       (processButtonEvents (processButtonEvent st now rands e).1 now
          (processButtonEvent st now rands e).2.1 es).2.1,
       (processButtonEvent st now rands e).2.2 ++
         (processButtonEvents (processButtonEvent st now rands e).1 now
            (processButtonEvent st now rands e).2.1 es).2.2)) ∧
    (0 ≤ st.score →
      0 ≤ (processButtonEvents st now rands (e :: es)).1.score) ∧
    (0 ≤ st.score → 0 ≤ (runRound st rands inputs).1.score) := by
  refine ⟨?_, ?_, ?_, rfl, ?_, ?_⟩
  · intro hk hm hp
    simp [processButtonEvent, hk, hm, hp, spawn_next_mole]
  · intro hk hm hp hne
    simp [processButtonEvent, hk, hm, hp, hne, spawn_next_mole]
  · intro hm
    unfold processButtonEvent
    rw [hm]
    by_cases hk : isKeyDown e
    · rw [if_pos hk]
    · rw [if_neg hk]
  · exact processButtonEvents_score_nonneg now (e :: es) st rands
  · exact runRound_score_nonneg inputs st rands

/-- Closed instance of `c2_score_rules`: from score 3 with target 4, a
press of key 5 (light 4) yields 4, a press of key 1 (light 0) yields
max 0 (3 − 1/2) = 5/2, and the score stays non-negative. -/
theorem c2_score_rules_witness :
    (processButtonEvent
        { is_available := true, score := 3, active_mole_light_index := some 4,
          last_mole_time := 0, game_start_time := 0, activeGen := 0,
          nextGen := 1 } 1 [2]
        { etype := 1, value := 1, code := 5 }).1.score = 3 + 1 ∧
    (processButtonEvent
        { is_available := true, score := 3, active_mole_light_index := some 4,
          last_mole_time := 0, game_start_time := 0, activeGen := 0,
          nextGen := 1 } 1 [2]
        { etype := 1, value := 1, code := 1 }).1.score =
      max 0 (3 - 1/2) ∧
    (0 : ℚ) ≤ (processButtonEvents
        { is_available := true, score := 3, active_mole_light_index := some 4,
          last_mole_time := 0, game_start_time := 0, activeGen := 0,
          nextGen := 1 } 1 [2]
        [{ etype := 1, value := 1, code := 5 },
         { etype := 1, value := 1, code := 1 }]).1.score := by
  have h1 := c2_score_rules
    { is_available := true, score := 3, active_mole_light_index := some 4,
      last_mole_time := 0, game_start_time := 0, activeGen := 0,
      nextGen := 1 } 1 [2] { etype := 1, value := 1, code := 5 } [] 4 4 []
  have h2 := c2_score_rules
    { is_available := true, score := 3, active_mole_light_index := some 4,
      last_mole_time := 0, game_start_time := 0, activeGen := 0,
      nextGen := 1 } 1 [2] { etype := 1, value := 1, code := 1 } [] 4 0 []
  have h3 := c2_score_rules
    { is_available := true, score := 3, active_mole_light_index := some 4,
      last_mole_time := 0, game_start_time := 0, activeGen := 0,
      nextGen := 1 } 1 [2] { etype := 1, value := 1, code := 5 }
    [{ etype := 1, value := 1, code := 1 }] 4 4 []
  refine ⟨?_, ?_, ?_⟩
  · exact h1.1 (by decide) rfl (by decide)
  · exact h2.2.1 (by decide) rfl (by decide) (by decide)
  · exact h3.2.2.2.2.1 (by norm_num)

/-! ## C3 -/

theorem take_damage_alive (s : EnemyShip) (hs : s.is_destroyed = false) :
    (take_damage s).1 =
      { s with current_health := s.current_health - 1,
               is_destroyed := decide (s.current_health - 1 ≤ 0) } := by
  unfold take_damage
  rw [hs]
  by_cases h : s.current_health - 1 ≤ 0
  · simp [h]
  · simp [h, hs]

theorem find_alive_cons_alive (s : EnemyShip) (rest : List EnemyShip)
    (hs : s.is_destroyed = false) :
    get_current_target_ship (s :: rest) = some s := by
  simp [get_current_target_ship, List.find?_cons, hs]

theorem find_alive_cons_destroyed (s : EnemyShip) (rest : List EnemyShip)
    (hs : s.is_destroyed = true) :
    get_current_target_ship (s :: rest) = get_current_target_ship rest := by
  simp [get_current_target_ship, List.find?_cons, hs]

theorem find_alive_append_destroyed :
    ∀ (l1 l2 : List EnemyShip), (∀ x ∈ l1, x.is_destroyed = true) →
      get_current_target_ship (l1 ++ l2) = get_current_target_ship l2 := by
  intro l1
  induction l1 with
  | nil => intro l2 _; rfl
  | cons s rest ih =>
    intro l2 h
    rw [List.cons_append,
      find_alive_cons_destroyed s _ (h s (by simp)),
      ih l2 (fun x hx => h x (by simp [hx]))]

theorem find_alive_decomp :
    ∀ (fleet : List EnemyShip) (s : EnemyShip),
      get_current_target_ship fleet = some s →
      ∃ l1 l2, fleet = l1 ++ s :: l2 ∧ (∀ x ∈ l1, x.is_destroyed = true) ∧
        s.is_destroyed = false := by
  intro fleet
  induction fleet with
  | nil => intro s h; exact absurd h (by simp [get_current_target_ship])
  | cons a rest ih =>
    intro s h
    by_cases ha : a.is_destroyed
    · rw [find_alive_cons_destroyed a rest ha] at h
      obtain ⟨l1, l2, heq, hdes, hs⟩ := ih s h
      refine ⟨a :: l1, l2, by rw [heq]; rfl, ?_, hs⟩
      intro x hx
      rcases List.mem_cons.mp hx with rfl | hx
      · exact ha
      · exact hdes x hx
    · have ha' : a.is_destroyed = false := by simpa using ha
      rw [find_alive_cons_alive a rest ha'] at h
      injection h with h
      exact ⟨[], rest, by rw [h, List.nil_append], by simp,
        by rw [← h]; exact ha'⟩

theorem damageFirstAlive_decomp :
    ∀ (l1 : List EnemyShip) (s : EnemyShip) (l2 : List EnemyShip),
      (∀ x ∈ l1, x.is_destroyed = true) → s.is_destroyed = false →
      damageFirstAlive (l1 ++ s :: l2) = l1 ++ (take_damage s).1 :: l2 := by
  intro l1
  induction l1 with
  | nil =>
    intro s l2 _ hs
    simp [damageFirstAlive, hs]
  | cons a rest ih =>
    intro s l2 h hs
    rw [List.cons_append, damageFirstAlive]
    rw [if_neg (by simp [h a (by simp)]), ih s l2
      (fun x hx => h x (by simp [hx])) hs, List.cons_append]

/-- C3: consuming `PLAYER_HIT` with a non-destroyed target (the first
non-destroyed ship `s`, after prefix `l1` of destroyed ships) decrements
exactly that ship's health by 1, marks it destroyed exactly when the
health reaches ≤ 0 — progression then moving past it — and heals the
player by 1/2 capped at max; consuming `PLAYER_MISS` or `MOLE_ESCAPED`
with a target present and positive player health decrements player
health by 1 floored at 0 and leaves the fleet unchanged; when the guard
fails each event changes nothing. -/
theorem c3_consumer_effects (b : BattleState) (q : ℚ) (g : ℕ)
    (s : EnemyShip) (l1 l2 : List EnemyShip) :
    (b.fleet = l1 ++ s :: l2 → (∀ x ∈ l1, x.is_destroyed = true) →
      s.is_destroyed = false →
      consumeEvent b (.playerHit q g) =
        { b with
          fleet := l1 ++
            ({ s with
                current_health := s.current_health - 1,
                is_destroyed := decide (s.current_health - 1 ≤ 0) } :
              EnemyShip) :: l2,
          player_health :=
            min (b.player_health + 1/2) b.player_max_health }) ∧
    (b.fleet = l1 ++ s :: l2 → (∀ x ∈ l1, x.is_destroyed = true) →
      s.is_destroyed = false → s.current_health - 1 ≤ 0 →
      get_current_target_ship (consumeEvent b (.playerHit q g)).fleet =
        get_current_target_ship l2) ∧
    (get_current_target_ship b.fleet = none →
      consumeEvent b (.playerHit q g) = b) ∧
    (get_current_target_ship b.fleet = some s → 0 < b.player_health →
      consumeEvent b (.playerMiss q g) =
          { b with player_health := max 0 (b.player_health - 1) } ∧
        consumeEvent b (.moleEscaped g) =
          { b with player_health := max 0 (b.player_health - 1) }) ∧
    (get_current_target_ship b.fleet = none ∨ b.player_health ≤ 0 →
      consumeEvent b (.playerMiss q g) = b ∧
        consumeEvent b (.moleEscaped g) = b) := by
  refine ⟨?_, ?_, ?_, ?_, ?_⟩
  · intro heq hdes hs
    have htgt : get_current_target_ship b.fleet = some s := by
      rw [heq, find_alive_append_destroyed l1 _ hdes,
        find_alive_cons_alive s l2 hs]
    show (match get_current_target_ship b.fleet with
      | some _ => _ | none => _) = _
    rw [htgt, heq, damageFirstAlive_decomp l1 s l2 hdes hs,
      take_damage_alive s hs]
  · intro heq hdes hs hdead
    have htgt : get_current_target_ship b.fleet = some s := by
      rw [heq, find_alive_append_destroyed l1 _ hdes,
        find_alive_cons_alive s l2 hs]
    show get_current_target_ship
      ((match get_current_target_ship b.fleet with
        | some _ => _ | none => _) : BattleState).fleet = _
    rw [htgt]
    show get_current_target_ship (damageFirstAlive b.fleet) = _
    rw [heq, damageFirstAlive_decomp l1 s l2 hdes hs,
      take_damage_alive s hs,
      find_alive_append_destroyed l1 _ hdes,
      find_alive_cons_destroyed _ l2 (by simpa using hdead)]
  · intro hnone
    show (match get_current_target_ship b.fleet with
      | some _ => _ | none => _) = _
    rw [hnone]
  · intro htgt hpos
    constructor
    · show (match get_current_target_ship b.fleet with
        | some _ => _ | none => _) = _
      rw [htgt]
      show (if b.player_health > 0 then _ else _) = _
      rw [if_pos hpos]
    · show (match get_current_target_ship b.fleet with
        | some _ => _ | none => _) = _
      rw [htgt]
      show (if b.player_health > 0 then _ else _) = _
      rw [if_pos hpos]
  · intro hguard
    rcases hguard with hnone | hle
    · constructor
      · show (match get_current_target_ship b.fleet with
          | some _ => _ | none => _) = _
        rw [hnone]
      · show (match get_current_target_ship b.fleet with
          | some _ => _ | none => _) = _
        rw [hnone]
    · have hnpos : ¬ b.player_health > 0 := by exact not_lt.mpr hle
      constructor
      · show (match get_current_target_ship b.fleet with
          | some _ => _ | none => _) = _
        rcases get_current_target_ship b.fleet with _ | t
        · rfl
        · show (if b.player_health > 0 then _ else _) = _
          rw [if_neg hnpos]
      · show (match get_current_target_ship b.fleet with
          | some _ => _ | none => _) = _
        rcases get_current_target_ship b.fleet with _ | t
        · rfl
        · show (if b.player_health > 0 then _ else _) = _
          rw [if_neg hnpos]

/-- Closed instance of `c3_consumer_effects`: the first hit of a fresh
round damages the Sloop from 5 to 4 HP and heals the (already full)
player up to the cap. -/
theorem c3_consumer_effects_witness :
    consumeEvent initialBattle (GEvent.playerHit 1 0) =
      { initialBattle with
        fleet := [] ++
          ({ freshShip ("Sloop", 5) with
              current_health := (freshShip ("Sloop", 5)).current_health - 1,
              is_destroyed :=
                decide ((freshShip ("Sloop", 5)).current_health - 1 ≤ 0) } :
            EnemyShip) ::
          List.map freshShip
            [("Brigantine", 10), ("Frigate", 15), ("Man-of-War", 15),
             ("Dreadnought (Boss)", 5)],
        player_health :=
          min (initialBattle.player_health + 1/2)
            initialBattle.player_max_health } :=
  (c3_consumer_effects initialBattle 1 0 (freshShip ("Sloop", 5)) []
      (List.map freshShip
        [("Brigantine", 10), ("Frigate", 15), ("Man-of-War", 15),
         ("Dreadnought (Boss)", 5)])).1
    (by simp [initialBattle, SHIP_DATA]) (by simp) rfl

/-! ## C4 -/

/-- Strengthened per-ship invariant: bounds plus the facts making the
bounds inductive (positive max health; a non-destroyed ship has at
least 1 HP, so the next hit cannot push it below 0). -/
def shipInv (s : EnemyShip) : Prop :=
  0 ≤ s.current_health ∧ s.current_health ≤ s.max_health ∧
    1 ≤ s.max_health ∧ (s.is_destroyed = false → 1 ≤ s.current_health)

/-- Strengthened battle invariant. -/
def battleInv (b : BattleState) : Prop :=
  0 ≤ b.player_health ∧ b.player_health ≤ b.player_max_health ∧
    0 < b.player_max_health ∧ ∀ s ∈ b.fleet, shipInv s

theorem battleInv_initial : battleInv initialBattle := by
  refine ⟨by norm_num [initialBattle], by norm_num [initialBattle],
    by norm_num [initialBattle], ?_⟩
  intro s hs
  simp only [initialBattle, SHIP_DATA, freshShip, List.map_cons,
    List.map_nil, List.mem_cons, List.not_mem_nil, or_false] at hs
  rcases hs with rfl | rfl | rfl | rfl | rfl <;>
    refine ⟨by norm_num, by norm_num, by norm_num, fun _ => by norm_num⟩

theorem take_damage_shipInv (s : EnemyShip) (h : shipInv s) :
    shipInv (take_damage s).1 := by
  obtain ⟨h0, hmax, hmax1, halive⟩ := h
  by_cases hd : s.is_destroyed
  · unfold take_damage
    rw [hd]
    exact ⟨h0, hmax, hmax1, halive⟩
  · have hd' : s.is_destroyed = false := by simpa using hd
    rw [take_damage_alive s hd']
    have h1 : 1 ≤ s.current_health := halive hd'
    refine ⟨by simpa using h1, by simp; omega, by simpa using hmax1, ?_⟩
    intro hfl
    simp only [decide_eq_false_iff_not, not_le] at hfl
    show (1:ℤ) ≤ s.current_health - 1
    omega

theorem damageFirstAlive_shipInv :
    ∀ (l : List EnemyShip), (∀ s ∈ l, shipInv s) →
      ∀ s ∈ damageFirstAlive l, shipInv s := by
  intro l
  induction l with
  | nil => intro _ s hs; exact absurd hs (by simp [damageFirstAlive])
  | cons a rest ih =>
    intro h s hs
    unfold damageFirstAlive at hs
    by_cases hd : a.is_destroyed
    · rw [if_neg (by simp [hd])] at hs
      rcases List.mem_cons.mp hs with rfl | hs
      · exact h s (by simp)
      · exact ih (fun x hx => h x (by simp [hx])) s hs
    · rw [if_pos (by simp [hd])] at hs
      rcases List.mem_cons.mp hs with rfl | hs
      · exact take_damage_shipInv a (h a (by simp))
      · exact h s (by simp [hs])

theorem consumeEvent_battleInv (b : BattleState) (ev : GEvent)
    (h : battleInv b) : battleInv (consumeEvent b ev) := by
  obtain ⟨hp0, hpm, hpmax, hships⟩ := h
  have hdmg : battleInv
      { b with
        fleet := damageFirstAlive b.fleet,
        player_health := min (b.player_health + 1/2) b.player_max_health } :=
    ⟨le_min (by linarith) (le_of_lt hpmax), min_le_right _ _, hpmax,
      damageFirstAlive_shipInv b.fleet hships⟩
  have hmiss : battleInv
      { b with player_health := max 0 (b.player_health - 1) } :=
    ⟨le_max_left _ _, max_le (le_of_lt hpmax) (by linarith), hpmax, hships⟩
  cases ev with
  | playerHit q g =>
    show battleInv (match get_current_target_ship b.fleet with
      | some _ => _ | none => b)
    rcases htgt : get_current_target_ship b.fleet with _ | t
    · exact ⟨hp0, hpm, hpmax, hships⟩
    · exact hdmg
  | playerMiss q g =>
    show battleInv (match get_current_target_ship b.fleet with
      | some _ => _ | none => b)
    rcases htgt : get_current_target_ship b.fleet with _ | t
    · exact ⟨hp0, hpm, hpmax, hships⟩
    · by_cases hpos : b.player_health > 0
      · rw [if_pos hpos]; exact hmiss
      · rw [if_neg hpos]; exact ⟨hp0, hpm, hpmax, hships⟩
  | moleEscaped g =>
    show battleInv (match get_current_target_ship b.fleet with
      | some _ => _ | none => b)
    rcases htgt : get_current_target_ship b.fleet with _ | t
    · exact ⟨hp0, hpm, hpmax, hships⟩
    · by_cases hpos : b.player_health > 0
      · rw [if_pos hpos]; exact hmiss
      · rw [if_neg hpos]; exact ⟨hp0, hpm, hpmax, hships⟩
  | startScreen => exact ⟨hp0, hpm, hpmax, hships⟩
  | countdownFinished => exact ⟨hp0, hpm, hpmax, hships⟩
  | moleSpawn i g => exact ⟨hp0, hpm, hpmax, hships⟩
  | gameOver s => exact ⟨hp0, hpm, hpmax, hships⟩

theorem reset_battleInv (b : BattleState) (h : battleInv b) :
    battleInv (reset_game_for_new_round b) := by
  obtain ⟨hp0, hpm, hpmax, hships⟩ := h
  unfold reset_game_for_new_round
  by_cases hempty : b.fleet = []
  · rw [if_pos hempty]; exact ⟨hp0, hpm, hpmax, hships⟩
  · rw [if_neg hempty]
    refine ⟨le_of_lt hpmax, le_refl _, hpmax, ?_⟩
    intro s hs
    simp only [List.mem_map] at hs
    obtain ⟨x, hx, rfl⟩ := hs
    obtain ⟨_, _, hmax1, _⟩ := hships x hx
    exact ⟨by linarith, le_refl _, hmax1, fun _ => hmax1⟩

/-- C4: in every battle state reachable through event consumption and
round resets, the health of the player and of every ship in the fleet
lies in the closed interval `[0, max_health]`. -/
theorem c4_health_bounds (b : BattleState) (h : ReachableBattle b) :
    (0 ≤ b.player_health ∧ b.player_health ≤ b.player_max_health) ∧
    ∀ s ∈ b.fleet,
      0 ≤ s.current_health ∧ s.current_health ≤ s.max_health := by
  have hinv : battleInv b := by
    induction h with
    | init => exact battleInv_initial
    | consume b0 ev hb ih => exact consumeEvent_battleInv b0 ev ih
    | reset b0 hb ih => exact reset_battleInv b0 ih
  obtain ⟨hp0, hpm, _, hships⟩ := hinv
  exact ⟨⟨hp0, hpm⟩, fun s hs =>
    ⟨(hships s hs).1, (hships s hs).2.1⟩⟩

/-- Closed instance of `c4_health_bounds`: the bounds hold after a miss
consumed on the fresh battle. -/
theorem c4_health_bounds_witness :
    (0 ≤ (consumeEvent initialBattle (GEvent.playerMiss 0 0)).player_health ∧
      (consumeEvent initialBattle (GEvent.playerMiss 0 0)).player_health ≤
        (consumeEvent initialBattle
          (GEvent.playerMiss 0 0)).player_max_health) ∧
    ∀ s ∈ (consumeEvent initialBattle (GEvent.playerMiss 0 0)).fleet,
      0 ≤ s.current_health ∧ s.current_health ≤ s.max_health :=
  c4_health_bounds (consumeEvent initialBattle (GEvent.playerMiss 0 0))
    (ReachableBattle.consume initialBattle (GEvent.playerMiss 0 0)
      ReachableBattle.init)

/-! ## C5 -/

/-- The fleet-order index of the current target (= `fleet.length` when
every ship is destroyed). -/
def currentTargetIdx (fleet : List EnemyShip) : ℕ :=
  fleet.findIdx (fun s => !s.is_destroyed)

/-- Destruction is monotone: pointwise relation between fleets stating
that a ship destroyed on the left stays destroyed on the right. -/
def destrMono (a b : EnemyShip) : Prop :=
  a.is_destroyed = true → b.is_destroyed = true

theorem damageFirstAlive_forall₂ :
    ∀ l : List EnemyShip, List.Forall₂ destrMono l (damageFirstAlive l) := by
  intro l
  induction l with
  | nil => exact List.Forall₂.nil
  | cons a rest ih =>
    unfold damageFirstAlive
    by_cases hd : a.is_destroyed
    · rw [if_neg (by simp [hd])]
      exact List.Forall₂.cons (fun h => h) ih
    · rw [if_pos (by simp [hd])]
      exact List.Forall₂.cons (fun h => absurd h hd)
        (List.forall₂_same.mpr (fun x _ h => h))

theorem consumeEvent_forall₂ (b : BattleState) (ev : GEvent) :
    List.Forall₂ destrMono b.fleet (consumeEvent b ev).fleet := by
  have hrefl : List.Forall₂ destrMono b.fleet b.fleet :=
    List.forall₂_same.mpr (fun x _ h => h)
  cases ev with
  | playerHit q g =>
    show List.Forall₂ destrMono b.fleet
      (match get_current_target_ship b.fleet with
        | some _ => _ | none => b).fleet
    rcases htgt : get_current_target_ship b.fleet with _ | t
    · exact hrefl
    · exact damageFirstAlive_forall₂ b.fleet
  | playerMiss q g =>
    show List.Forall₂ destrMono b.fleet
      (match get_current_target_ship b.fleet with
        | some _ => _ | none => b).fleet
    rcases htgt : get_current_target_ship b.fleet with _ | t
    · exact hrefl
    · by_cases hpos : b.player_health > 0
      · rw [if_pos hpos]; exact hrefl
      · rw [if_neg hpos]; exact hrefl
  | moleEscaped g =>
    show List.Forall₂ destrMono b.fleet
      (match get_current_target_ship b.fleet with
        | some _ => _ | none => b).fleet
    rcases htgt : get_current_target_ship b.fleet with _ | t
    · exact hrefl
    · by_cases hpos : b.player_health > 0
      · rw [if_pos hpos]; exact hrefl
      · rw [if_neg hpos]; exact hrefl
  | startScreen => exact hrefl
  | countdownFinished => exact hrefl
  | moleSpawn i g => exact hrefl
  | gameOver s => exact hrefl

theorem destrMono_forall₂_trans :
    ∀ {l1 l2 l3 : List EnemyShip}, List.Forall₂ destrMono l1 l2 →
      List.Forall₂ destrMono l2 l3 → List.Forall₂ destrMono l1 l3 := by
  intro l1 l2 l3 h1
  induction h1 generalizing l3 with
  | nil =>
    intro h2
    cases h2
    exact List.Forall₂.nil
  | cons hab hrest ih =>
    intro h2
    cases h2 with
    | cons hbc hrest2 =>
      exact List.Forall₂.cons (fun h => hbc (hab h)) (ih hrest2)

theorem consumeList_forall₂ :
    ∀ (evs : List GEvent) (b : BattleState),
      List.Forall₂ destrMono b.fleet (consumeList b evs).fleet := by
  intro evs
  induction evs with
  | nil => intro b; exact List.forall₂_same.mpr (fun x _ h => h)
  | cons e es ih =>
    intro b
    exact destrMono_forall₂_trans (consumeEvent_forall₂ b e)
      (ih (consumeEvent b e))

theorem currentTargetIdx_mono :
    ∀ {l l' : List EnemyShip}, List.Forall₂ destrMono l l' →
      currentTargetIdx l ≤ currentTargetIdx l' := by
  intro l l' h
  induction h with
  | nil => exact le_refl 0
  | cons hab hrest ih =>
    rename_i a b l1 l2
    unfold currentTargetIdx at *
    rw [List.findIdx_cons, List.findIdx_cons]
    by_cases ha : a.is_destroyed
    · rw [hab ha, ha]
      simpa using ih
    · have ha' : a.is_destroyed = false := by simpa using ha
      rw [ha']
      simp

theorem currentTargetIdx_alive :
    ∀ (l : List EnemyShip) (i : ℕ) (h : i < l.length),
      currentTargetIdx l = i → (l.get ⟨i, h⟩).is_destroyed = false := by
  intro l
  induction l with
  | nil => intro i h; exact absurd h (by simp)
  | cons a rest ih =>
    intro i h hidx
    unfold currentTargetIdx at hidx
    rw [List.findIdx_cons] at hidx
    by_cases ha : a.is_destroyed
    · rw [ha] at hidx
      simp only [Bool.not_true, cond_false] at hidx
      rcases i with _ | j
      · exact absurd hidx (by simp)
      · exact ih j (by simpa using h) (by unfold currentTargetIdx; omega)
    · have ha' : a.is_destroyed = false := by simpa using ha
      rw [ha'] at hidx
      simp only [Bool.not_false, cond_true] at hidx
      rcases hidx with rfl
      exact ha'

theorem destroyed_never_target (l : List EnemyShip) (i : ℕ)
    (h : i < l.length) (hd : (l.get ⟨i, h⟩).is_destroyed = true) :
    currentTargetIdx l ≠ i := by
  intro hidx
  rw [currentTargetIdx_alive l i h hidx] at hd
  exact absurd hd (by simp)

/-- C5: the current target is always the first non-destroyed ship in
fleet order, and fleet progression within a round is monotonic: event
consumption only ever sets destroyed flags (never clears them), the
fleet-order index of the current target never decreases, and a ship
destroyed at index `i` is never selected as current target again by any
later suffix of consumption. -/
theorem c5_fleet_progression (b : BattleState) (evs : List GEvent)
    (s : EnemyShip) (i : ℕ) :
    (get_current_target_ship b.fleet = some s →
      ∃ l1 l2, b.fleet = l1 ++ s :: l2 ∧
        (∀ x ∈ l1, x.is_destroyed = true) ∧ s.is_destroyed = false) ∧
    List.Forall₂ destrMono b.fleet (consumeList b evs).fleet ∧
    currentTargetIdx b.fleet ≤ currentTargetIdx (consumeList b evs).fleet ∧
    (∀ h : i < b.fleet.length, (b.fleet.get ⟨i, h⟩).is_destroyed = true →
      currentTargetIdx (consumeList b evs).fleet ≠ i) := by
  refine ⟨find_alive_decomp b.fleet s, consumeList_forall₂ evs b,
    currentTargetIdx_mono (consumeList_forall₂ evs b), ?_⟩
  intro h hd
  have hf := consumeList_forall₂ evs b
  have hlen := hf.length_eq
  have h' : i < (consumeList b evs).fleet.length := by omega
  have hd' : ((consumeList b evs).fleet.get ⟨i, h'⟩).is_destroyed = true :=
    (List.forall₂_iff_get.mp hf).2 i h h' hd
  exact destroyed_never_target _ i h' hd'

/-- Closed instance of `c5_fleet_progression`: with the first ship
destroyed, the target decomposes after that ship, and after a further
hit the destroyed ship at index 0 is still not the target. -/
theorem c5_fleet_progression_witness :
    (∃ l1 l2,
      ({ fleet :=
            [{ name := "a", max_health := 5, current_health := 0,
               is_destroyed := true }, freshShip ("b", 3)],
         player_health := 5, player_max_health := 10 } :
          BattleState).fleet = l1 ++ freshShip ("b", 3) :: l2 ∧
        (∀ x ∈ l1, x.is_destroyed = true) ∧
        (freshShip ("b", 3)).is_destroyed = false) ∧
    currentTargetIdx
        (consumeList
          { fleet :=
              [{ name := "a", max_health := 5, current_health := 0,
                 is_destroyed := true }, freshShip ("b", 3)],
            player_health := 5, player_max_health := 10 }
          [GEvent.playerHit 1 0]).fleet ≠ 0 := by
  have h := c5_fleet_progression
    { fleet :=
        [{ name := "a", max_health := 5, current_health := 0,
           is_destroyed := true }, freshShip ("b", 3)],
      player_health := 5, player_max_health := 10 }
    [GEvent.playerHit 1 0] (freshShip ("b", 3)) 0
  exact ⟨h.1 rfl, h.2.2.2 (by decide) rfl⟩

/-! ## C6 -/

/-- Is this event a `MOLE_SPAWN`? -/
def isSpawn (e : GEvent) : Bool :=
  match e with
  | .moleSpawn _ _ => true
  | _ => false

/-- Is this event the spawn of target generation `g`? -/
def isSpawnOf (g : ℕ) (e : GEvent) : Bool :=
  match e with
  | .moleSpawn _ g' => decide (g' = g)
  | _ => false

/-- Is this event a hit/miss/escape outcome referencing generation `g`? -/
def isOutcomeOf (g : ℕ) (e : GEvent) : Bool :=
  match e with
  | .moleEscaped g' => decide (g' = g)
  | .playerHit _ g' => decide (g' = g)
  | .playerMiss _ g' => decide (g' = g)
  | _ => false

/-- How many spawn events for generation `g` a trace contains. -/
def spawnCount (g : ℕ) (t : List GEvent) : ℕ := t.countP (isSpawnOf g)

/-- Whether a trace contains an outcome event referencing `g`. -/
def hasOutcome (g : ℕ) (t : List GEvent) : Bool := t.any (isOutcomeOf g)

/-- Total number of spawn events in a trace. -/
def numSpawns (t : List GEvent) : ℕ := t.countP isSpawn

/-- Well-formedness of a trace relative to a next-generation counter
`k`: spawn events carry exactly the generations `k, k+1, …` in order,
and every outcome event references a generation already spawned
(strictly below the running counter). -/
def okFrom : ℕ → List GEvent → Bool
  | _, [] => true
  | k, GEvent.moleSpawn _ g :: rest => decide (g = k) && okFrom (k + 1) rest
  | k, GEvent.moleEscaped g :: rest => decide (g < k) && okFrom k rest
  | k, GEvent.playerHit _ g :: rest => decide (g < k) && okFrom k rest
  | k, GEvent.playerMiss _ g :: rest => decide (g < k) && okFrom k rest
  | k, _ :: rest => okFrom k rest

theorem okFrom_append :
    ∀ (t u : List GEvent) (k : ℕ),
      okFrom k (t ++ u) = (okFrom k t && okFrom (k + numSpawns t) u) := by
  intro t
  induction t with
  | nil => intro u k; simp [okFrom, numSpawns]
  | cons e rest ih =>
    intro u k
    cases e with
    | moleSpawn idx g =>
      have hn : k + numSpawns (GEvent.moleSpawn idx g :: rest) =
          (k + 1) + numSpawns rest := by
        simp [numSpawns, List.countP_cons, isSpawn]
        try omega
      rw [List.cons_append, okFrom, okFrom, hn, ih u (k + 1),
        Bool.and_assoc]
    | moleEscaped g =>
      have hn : k + numSpawns (GEvent.moleEscaped g :: rest) =
          k + numSpawns rest := by
        simp [numSpawns, List.countP_cons, isSpawn]
        try omega
      rw [List.cons_append, okFrom, okFrom, hn, ih u k, Bool.and_assoc]
    | playerHit q g =>
      have hn : k + numSpawns (GEvent.playerHit q g :: rest) =
          k + numSpawns rest := by
        simp [numSpawns, List.countP_cons, isSpawn]
        try omega
      rw [List.cons_append, okFrom, okFrom, hn, ih u k, Bool.and_assoc]
    | playerMiss q g =>
      have hn : k + numSpawns (GEvent.playerMiss q g :: rest) =
          k + numSpawns rest := by
        simp [numSpawns, List.countP_cons, isSpawn]
        try omega
      rw [List.cons_append, okFrom, okFrom, hn, ih u k, Bool.and_assoc]
    | startScreen =>
      have hn : k + numSpawns (GEvent.startScreen :: rest) =
          k + numSpawns rest := by
        simp [numSpawns, List.countP_cons, isSpawn]
        try omega
      rw [List.cons_append, okFrom, okFrom, hn, ih u k]
      all_goals simp
    | countdownFinished =>
      have hn : k + numSpawns (GEvent.countdownFinished :: rest) =
          k + numSpawns rest := by
        simp [numSpawns, List.countP_cons, isSpawn]
        try omega
      rw [List.cons_append, okFrom, okFrom, hn, ih u k]
      all_goals simp
    | gameOver s =>
      have hn : k + numSpawns (GEvent.gameOver s :: rest) =
          k + numSpawns rest := by
        simp [numSpawns, List.countP_cons, isSpawn]
        try omega
      rw [List.cons_append, okFrom, okFrom, hn, ih u k]
      all_goals simp

theorem okFrom_spawnCount_lt :
    ∀ (t : List GEvent) (k : ℕ), okFrom k t = true →
      ∀ g, g < k → spawnCount g t = 0 := by
  intro t
  induction t with
  | nil => intro k _ g _; rfl
  | cons e rest ih =>
    intro k hok g hg
    cases e with
    | moleSpawn idx g' =>
      rw [okFrom, Bool.and_eq_true, decide_eq_true_eq] at hok
      obtain ⟨rfl, hrest⟩ := hok
      simp only [spawnCount, List.countP_cons, isSpawnOf]
      rw [show List.countP (isSpawnOf g) rest = spawnCount g rest from rfl,
        ih (g' + 1) hrest g (by omega)]
      have : ¬ (g' = g) := by omega
      simp [this]
    | moleEscaped g' =>
      rw [okFrom, Bool.and_eq_true] at hok
      simp only [spawnCount, List.countP_cons, isSpawnOf]
      rw [show List.countP (isSpawnOf g) rest = spawnCount g rest from rfl,
        ih k hok.2 g hg]
      simp
    | playerHit q g' =>
      rw [okFrom, Bool.and_eq_true] at hok
      simp only [spawnCount, List.countP_cons, isSpawnOf]
      rw [show List.countP (isSpawnOf g) rest = spawnCount g rest from rfl,
        ih k hok.2 g hg]
      simp
    | playerMiss q g' =>
      rw [okFrom, Bool.and_eq_true] at hok
      simp only [spawnCount, List.countP_cons, isSpawnOf]
      rw [show List.countP (isSpawnOf g) rest = spawnCount g rest from rfl,
        ih k hok.2 g hg]
      simp
    | startScreen =>
      rw [okFrom] at hok
      · simp only [spawnCount, List.countP_cons, isSpawnOf]
        rw [show List.countP (isSpawnOf g) rest = spawnCount g rest from rfl,
          ih k hok g hg]
        simp
      all_goals simp
    | countdownFinished =>
      rw [okFrom] at hok
      · simp only [spawnCount, List.countP_cons, isSpawnOf]
        rw [show List.countP (isSpawnOf g) rest = spawnCount g rest from rfl,
          ih k hok g hg]
        simp
      all_goals simp
    | gameOver s =>
      rw [okFrom] at hok
      · simp only [spawnCount, List.countP_cons, isSpawnOf]
        rw [show List.countP (isSpawnOf g) rest = spawnCount g rest from rfl,
          ih k hok g hg]
        simp
      all_goals simp

theorem okFrom_cons_cases (e : GEvent) (rest : List GEvent) (k : ℕ)
    (hok : okFrom k (e :: rest) = true) :
    (∃ idx, e = GEvent.moleSpawn idx k ∧ okFrom (k + 1) rest = true) ∨
    (isSpawn e = false ∧ okFrom k rest = true ∧
      ∀ g, isOutcomeOf g e = true → g < k) := by
  cases e with
  | moleSpawn idx g =>
    rw [okFrom, Bool.and_eq_true, decide_eq_true_eq] at hok
    exact Or.inl ⟨idx, by rw [hok.1], hok.2⟩
  | moleEscaped g =>
    rw [okFrom, Bool.and_eq_true, decide_eq_true_eq] at hok
    refine Or.inr ⟨rfl, hok.2, ?_⟩
    intro g' hg'
    simp only [isOutcomeOf, decide_eq_true_eq] at hg'
    omega
  | playerHit q g =>
    rw [okFrom, Bool.and_eq_true, decide_eq_true_eq] at hok
    refine Or.inr ⟨rfl, hok.2, ?_⟩
    intro g' hg'
    simp only [isOutcomeOf, decide_eq_true_eq] at hg'
    omega
  | playerMiss q g =>
    rw [okFrom, Bool.and_eq_true, decide_eq_true_eq] at hok
    refine Or.inr ⟨rfl, hok.2, ?_⟩
    intro g' hg'
    simp only [isOutcomeOf, decide_eq_true_eq] at hg'
    omega
  | startScreen =>
    rw [okFrom] at hok
    · exact Or.inr ⟨rfl, hok, by intro g hg; exact absurd hg (by simp [isOutcomeOf])⟩
    all_goals simp
  | countdownFinished =>
    rw [okFrom] at hok
    · exact Or.inr ⟨rfl, hok, by intro g hg; exact absurd hg (by simp [isOutcomeOf])⟩
    all_goals simp
  | gameOver s =>
    rw [okFrom] at hok
    · exact Or.inr ⟨rfl, hok, by intro g hg; exact absurd hg (by simp [isOutcomeOf])⟩
    all_goals simp

theorem okFrom_spawnCount_le_one :
    ∀ (t : List GEvent) (k : ℕ), okFrom k t = true →
      ∀ g, spawnCount g t ≤ 1 := by
  intro t
  induction t with
  | nil => intro k _ g; simp [spawnCount]
  | cons e rest ih =>
    intro k hok g
    rcases okFrom_cons_cases e rest k hok with ⟨idx, rfl, hrest⟩ |
      ⟨hs, hrest, _⟩
    · simp only [spawnCount, List.countP_cons, isSpawnOf]
      by_cases hg : k = g
      · subst hg
        rw [show List.countP (isSpawnOf k) rest = spawnCount k rest from rfl,
          okFrom_spawnCount_lt rest (k + 1) hrest k (by omega)]
        simp
      · rw [show List.countP (isSpawnOf g) rest = spawnCount g rest from rfl]
        have := ih (k + 1) hrest g
        simp only [decide_eq_true_eq]
        rw [if_neg hg]
        omega
    · have hnot : isSpawnOf g e = false := by
        cases e <;> simp_all [isSpawn, isSpawnOf]
      simp only [spawnCount, List.countP_cons, hnot]
      rw [show List.countP (isSpawnOf g) rest = spawnCount g rest from rfl]
      have := ih k hrest g
      simp
      omega

theorem okFrom_outcome_seen :
    ∀ (t : List GEvent) (k : ℕ), okFrom k t = true →
      ∀ (n g : ℕ), hasOutcome g (t.take n) = true →
        g < k ∨ 1 ≤ spawnCount g (t.take n) := by
  intro t
  induction t with
  | nil =>
    intro k _ n g h
    rw [List.take_nil] at h
    exact absurd h (by simp [hasOutcome])
  | cons e rest ih =>
    intro k hok n g h
    rcases n with _ | n
    · rw [List.take_zero] at h
      exact absurd h (by simp [hasOutcome])
    · rw [List.take_succ_cons] at h
      rcases okFrom_cons_cases e rest k hok with ⟨idx, rfl, hrest⟩ |
        ⟨hs, hrest, houtlt⟩
      · have h' : hasOutcome g (rest.take n) = true := by
          simpa [hasOutcome, isOutcomeOf] using h
        rcases ih (k + 1) hrest n g h' with hlt | hcnt
        · by_cases hg : g = k
          · subst hg
            right
            rw [List.take_succ_cons]
            simp [spawnCount, List.countP_cons, isSpawnOf]
          · left
            omega
        · right
          rw [List.take_succ_cons]
          simp only [spawnCount, List.countP_cons]
          rw [show List.countP (isSpawnOf g) (rest.take n) =
            spawnCount g (rest.take n) from rfl]
          omega
      · rw [hasOutcome, List.any_cons, Bool.or_eq_true] at h
        rcases h with h | h
        · exact Or.inl (houtlt g h)
        · rcases ih k hrest n g h with hlt | hcnt
          · exact Or.inl hlt
          · right
            rw [List.take_succ_cons]
            simp only [spawnCount, List.countP_cons]
            rw [show List.countP (isSpawnOf g) (rest.take n) =
              spawnCount g (rest.take n) from rfl]
            omega

/-- Ghost-counter invariant of the controller: whenever a mole is
active, its generation was already allocated. -/
def StInv (st : CtrlState) : Prop :=
  ∀ m, st.active_mole_light_index = some m → st.activeGen < st.nextGen

theorem spawn_next_mole_block (st : CtrlState) (now : ℚ) (r : ℕ) :
    okFrom st.nextGen (spawn_next_mole st now r).2 = true ∧
    (spawn_next_mole st now r).1.nextGen =
      st.nextGen + numSpawns (spawn_next_mole st now r).2 ∧
    StInv (spawn_next_mole st now r).1 := by
  refine ⟨?_, ?_, ?_⟩
  · simp [spawn_next_mole, okFrom]
  · simp [spawn_next_mole, numSpawns, isSpawn]
  · intro m _
    simp [spawn_next_mole]

theorem processButtonEvent_block (st : CtrlState) (now : ℚ)
    (rands : List ℕ) (e : InputEvent) (hinv : StInv st) :
    okFrom st.nextGen (processButtonEvent st now rands e).2.2 = true ∧
    (processButtonEvent st now rands e).1.nextGen =
      st.nextGen + numSpawns (processButtonEvent st now rands e).2.2 ∧
    StInv (processButtonEvent st now rands e).1 := by
  by_cases hk : isKeyDown e
  · rcases hm : st.active_mole_light_index with _ | m <;>
      rcases hp : KEY_TO_LIGHT_INDEX e.code with _ | p
    · have heq : processButtonEvent st now rands e = (st, rands, []) := by
        simp [processButtonEvent, hk, hm, hp]
      rw [heq]
      exact ⟨rfl, by simp [numSpawns], hinv⟩
    · have heq : processButtonEvent st now rands e = (st, rands, []) := by
        simp [processButtonEvent, hk, hm, hp]
      rw [heq]
      exact ⟨rfl, by simp [numSpawns], hinv⟩
    · have heq : processButtonEvent st now rands e = (st, rands, []) := by
        simp [processButtonEvent, hk, hm, hp]
      rw [heq]
      exact ⟨rfl, by simp [numSpawns], hinv⟩
    · by_cases hpm : p = m
      · have heq : processButtonEvent st now rands e =
            ((spawn_next_mole { st with score := st.score + 1 } now
                (rands.headD 0)).1,
             rands.tail,
             [GEvent.playerHit (st.score + 1) st.activeGen,
              GEvent.moleSpawn (rands.headD 0) st.nextGen]) := by
          simp [processButtonEvent, hk, hm, hp, hpm, spawn_next_mole]
        rw [heq]
        refine ⟨?_, ?_, ?_⟩
        · simp [okFrom, hinv m hm]
        · simp [spawn_next_mole, numSpawns, isSpawn, List.countP_cons]
        · intro m' _
          simp [spawn_next_mole]
      · have heq : processButtonEvent st now rands e =
            ((spawn_next_mole { st with score := max 0 (st.score - 1/2) }
                now (rands.headD 0)).1,
             rands.tail,
             [GEvent.playerMiss (max 0 (st.score - 1/2)) st.activeGen,
              GEvent.moleSpawn (rands.headD 0) st.nextGen]) := by
          simp [processButtonEvent, hk, hm, hp, hpm, spawn_next_mole]
        rw [heq]
        refine ⟨?_, ?_, ?_⟩
        · simp [okFrom, hinv m hm]
        · simp [spawn_next_mole, numSpawns, isSpawn, List.countP_cons]
        · intro m' _
          simp [spawn_next_mole]
  · have heq : processButtonEvent st now rands e = (st, rands, []) := by
      simp [processButtonEvent, hk]
    rw [heq]
    exact ⟨rfl, by simp [numSpawns], hinv⟩

theorem processButtonEvents_block (now : ℚ) :
    ∀ (batch : List InputEvent) (st : CtrlState) (rands : List ℕ),
      StInv st →
      okFrom st.nextGen (processButtonEvents st now rands batch).2.2 = true ∧
      (processButtonEvents st now rands batch).1.nextGen =
        st.nextGen +
          numSpawns (processButtonEvents st now rands batch).2.2 ∧
      StInv (processButtonEvents st now rands batch).1 := by
  intro batch
  induction batch with
  | nil =>
    intro st rands hinv
    exact ⟨rfl, by simp [numSpawns, processButtonEvents], hinv⟩
  | cons e es ih =>
    intro st rands hinv
    obtain ⟨hok1, hn1, hinv1⟩ := processButtonEvent_block st now rands e hinv
    obtain ⟨hok2, hn2, hinv2⟩ :=
      ih (processButtonEvent st now rands e).1
        (processButtonEvent st now rands e).2.1 hinv1
    refine ⟨?_, ?_, hinv2⟩
    · show okFrom st.nextGen
        ((processButtonEvent st now rands e).2.2 ++
          (processButtonEvents (processButtonEvent st now rands e).1 now
            (processButtonEvent st now rands e).2.1 es).2.2) = true
      rw [okFrom_append, Bool.and_eq_true]
      exact ⟨hok1, by rw [← hn1]; exact hok2⟩
    · show (processButtonEvents (processButtonEvent st now rands e).1 now
          (processButtonEvent st now rands e).2.1 es).1.nextGen =
        st.nextGen +
          numSpawns ((processButtonEvent st now rands e).2.2 ++
            (processButtonEvents (processButtonEvent st now rands e).1 now
              (processButtonEvent st now rands e).2.1 es).2.2)
      rw [hn2, hn1]
      simp [numSpawns, List.countP_append]
      omega

theorem moleTimerStep_block (st : CtrlState) (now : ℚ) (rands : List ℕ)
    (hinv : StInv st) :
    okFrom st.nextGen (moleTimerStep st now rands).2.2 = true ∧
    (moleTimerStep st now rands).1.nextGen =
      st.nextGen + numSpawns (moleTimerStep st now rands).2.2 ∧
    StInv (moleTimerStep st now rands).1 := by
  by_cases hc : st.active_mole_light_index = none ∨
      now - st.last_mole_time > MOLE_DURATION
  · rcases hm : st.active_mole_light_index with _ | m
    · have heq : moleTimerStep st now rands =
          ((spawn_next_mole st now (rands.headD 0)).1, rands.tail,
           [GEvent.moleSpawn (rands.headD 0) st.nextGen]) := by
        simp [moleTimerStep, hc, hm, spawn_next_mole]
      rw [heq]
      refine ⟨by simp [okFrom], ?_, ?_⟩
      · simp [spawn_next_mole, numSpawns, isSpawn]
      · intro m' _
        simp [spawn_next_mole]
    · have ht : MOLE_DURATION + st.last_mole_time < now := by
        rcases hc with h | h
        · rw [hm] at h
          exact absurd h (by simp)
        · linarith
      have heq : moleTimerStep st now rands =
          ((spawn_next_mole st now (rands.headD 0)).1, rands.tail,
           [GEvent.moleEscaped st.activeGen,
            GEvent.moleSpawn (rands.headD 0) st.nextGen]) := by
        simp [moleTimerStep, hm, spawn_next_mole, ht]
      rw [heq]
      refine ⟨by simp [okFrom, hinv m hm], ?_, ?_⟩
      · simp [spawn_next_mole, numSpawns, isSpawn, List.countP_cons]
      · intro m' _
        simp [spawn_next_mole]
  · have heq : moleTimerStep st now rands = (st, rands, []) := by
      simp only [moleTimerStep, if_neg hc]
    rw [heq]
    exact ⟨rfl, by simp [numSpawns], hinv⟩

theorem innerIter_block (st : CtrlState) (now ph : ℚ)
    (fleet : List EnemyShip) (rands : List ℕ)
    (polled : Option (List InputEvent)) (st' : CtrlState) (r' : List ℕ)
    (evs : List GEvent)
    (hc : innerIter st now ph fleet rands polled = .cont st' r' evs)
    (hinv : StInv st) :
    okFrom st.nextGen evs = true ∧
    st'.nextGen = st.nextGen + numSpawns evs ∧ StInv st' := by
  rcases em (roundEndCheck st now ph fleet) with hend | hend
  · rw [(innerIter_ended_iff st now ph fleet rands polled).mpr hend] at hc
    exact absurd hc (by simp)
  · obtain ⟨hok1, hn1, hinv1⟩ := moleTimerStep_block st now rands hinv
    have hin : st.is_available = true ∧ (∃ batch, polled = some batch) ∨
        (st.is_available = false ∨ polled = none) := by
      by_cases ha : st.is_available
      · rcases polled with _ | batch
        · exact Or.inr (Or.inr rfl)
        · exact Or.inl ⟨ha, batch, rfl⟩
      · exact Or.inr (Or.inl (by simpa using ha))
    rcases hin with ⟨ha, batch, rfl⟩ | hni
    · rw [innerIter_eq_input st now ph fleet rands batch hend ha] at hc
      injection hc with h1 h2 h3
      obtain ⟨hok2, hn2, hinv2⟩ :=
        processButtonEvents_block now batch (moleTimerStep st now rands).1
          (moleTimerStep st now rands).2.1 hinv1
      subst h1 h3
      refine ⟨?_, ?_, hinv2⟩
      · rw [okFrom_append, Bool.and_eq_true]
        exact ⟨hok1, by rw [← hn1]; exact hok2⟩
      · rw [hn2, hn1]
        simp only [numSpawns, List.countP_append]
        omega
    · rw [innerIter_eq_no_input st now ph fleet rands polled hend hni] at hc
      injection hc with h1 h2 h3
      subst h1 h3
      exact ⟨hok1, hn1, hinv1⟩

theorem runRound_block :
    ∀ (inputs : List IterInput) (st : CtrlState) (rands : List ℕ),
      StInv st →
      okFrom st.nextGen (runRound st rands inputs).2.2 = true ∧
      StInv (runRound st rands inputs).1 := by
  intro inputs
  induction inputs with
  | nil => intro st rands hinv; exact ⟨rfl, hinv⟩
  | cons i is ih =>
    intro st rands hinv
    rw [runRound]
    rcases hc : innerIter st i.now i.playerHealth i.fleet rands i.polled with
      _ | ⟨st1, r1, evs1⟩
    · exact ⟨rfl, hinv⟩
    · obtain ⟨hok1, hn1, hinv1⟩ := innerIter_block st i.now i.playerHealth
        i.fleet rands i.polled st1 r1 evs1 hc hinv
      obtain ⟨hok2, hinv2⟩ := ih st1 r1 hinv1
      refine ⟨?_, hinv2⟩
      show okFrom st.nextGen (evs1 ++ (runRound st1 r1 is).2.2) = true
      rw [okFrom_append, Bool.and_eq_true]
      exact ⟨hok1, by rw [← hn1]; exact hok2⟩

/-- C6: in the event trace a round produces (the queue contents in FIFO
production order), spawn events number the targets `0, 1, 2, …` in
order and every hit/miss/escape event references an already-spawned
generation (`okFrom 0`); consequently each target is spawned exactly
once, and every prefix of the queue that contains an outcome event for
generation `g` already contains the (unique) spawn of `g` — no outcome
ever appears in the queue before the spawn of the target it refers to. -/
theorem c6_spawn_precedes_outcome (avail : Bool) (t0 : ℚ)
    (rands : List ℕ) (inputs : List IterInput) (n g : ℕ) :
    okFrom 0 (runRound (initialCtrl avail t0) rands inputs).2.2 = true ∧
    spawnCount g (runRound (initialCtrl avail t0) rands inputs).2.2 ≤ 1 ∧
    (hasOutcome g
        ((runRound (initialCtrl avail t0) rands inputs).2.2.take n) =
          true →
      spawnCount g
        ((runRound (initialCtrl avail t0) rands inputs).2.2.take n) = 1) := by
  have hinv : StInv (initialCtrl avail t0) := by
    intro m hm
    exact absurd hm (by simp [initialCtrl])
  obtain ⟨hok, _⟩ := runRound_block inputs (initialCtrl avail t0) rands hinv
  refine ⟨hok, okFrom_spawnCount_le_one _ 0 hok g, ?_⟩
  intro hout
  rcases okFrom_outcome_seen _ 0 hok n g hout with hlt | hge
  · omega
  · have hle : spawnCount g
        ((runRound (initialCtrl avail t0) rands inputs).2.2.take n) ≤
        spawnCount g (runRound (initialCtrl avail t0) rands inputs).2.2 :=
      List.Sublist.countP_le _ (List.take_sublist n _)
    have hone := okFrom_spawnCount_le_one _ 0 hok g
    omega

/-- Closed instance of `c6_spawn_precedes_outcome`: a two-iteration run
(spawn, then timeout escape and respawn) whose 2-event queue prefix
contains the escape of generation 0 together with exactly one spawn of
generation 0 before it. -/
theorem c6_spawn_precedes_outcome_witness :
    spawnCount 0
      (((runRound (initialCtrl true 0) [0, 0]
        [{ now := 0, playerHealth := 10, fleet := initialBattle.fleet,
           polled := none },
         { now := 2, playerHealth := 10, fleet := initialBattle.fleet,
           polled := none }]).2.2).take 2) = 1 :=
  (c6_spawn_precedes_outcome true 0 [0, 0]
      [{ now := 0, playerHealth := 10, fleet := initialBattle.fleet,
         polled := none },
       { now := 2, playerHealth := 10, fleet := initialBattle.fleet,
         polled := none }] 2 0).2.2
    (by
      norm_num [runRound, innerIter, moleTimerStep, processButtonEvents,
        spawn_next_mole, roundEndCheck, get_current_target_ship,
        initialCtrl, initialBattle, SHIP_DATA, freshShip, GAME_DURATION,
        MOLE_DURATION, hasOutcome, isOutcomeOf, List.find?]
      simp [(by norm_num : ¬ (30:ℚ) ≤ 2)])

/-! ## C9 -/

/-- One ACTIVE iteration of a fresh round in which the player presses
the correct target 5 times in a row (the random stream keeps the mole
on light 0 and key 1 maps to light 0). -/
def fiveHits : List IterInput :=
  [{ now := 0, playerHealth := 10, fleet := initialBattle.fleet,
     polled :=
       some (List.replicate 5 { etype := 1, value := 1, code := 1 }) }]

/-- C9: starting from a fresh round, 5 consecutive correct-target hits
with no misses and no escapes leave the controller score at 5, and —
after the consumer drains the produced queue — the fleet's first ship
(the 5-HP Sloop) destroyed and the player healed by
min (5 × 0.5, starting deficit), which is 0 for a full-health player. -/
theorem c9_five_hits :
    (runRound (initialCtrl true 0) [0, 0, 0, 0, 0, 0] fiveHits).1.score =
      5 ∧
    ((consumeList initialBattle
        (runRound (initialCtrl true 0) [0, 0, 0, 0, 0, 0]
          fiveHits).2.2).fleet.headD (freshShip ("", 1))).is_destroyed =
      true ∧
    (consumeList initialBattle
        (runRound (initialCtrl true 0) [0, 0, 0, 0, 0, 0]
          fiveHits).2.2).player_health =
      initialBattle.player_health +
        min (5 * (1/2))
          (initialBattle.player_max_health -
            initialBattle.player_health) := by
  norm_num [fiveHits, runRound, innerIter, moleTimerStep,
    processButtonEvents, processButtonEvent, spawn_next_mole,
    roundEndCheck, get_current_target_ship, initialCtrl, initialBattle,
    SHIP_DATA, freshShip, isKeyDown, KEY_TO_LIGHT_INDEX, EV_KEY,
    GAME_DURATION, MOLE_DURATION, List.replicate, List.find?, consumeList,
    consumeEvent, damageFirstAlive, take_damage]
  simp

/-! ## C10 -/

/-- The score is a non-negative half-integer: `m / 2` for some `m : ℕ`. -/
def isHalfScore (q : ℚ) : Prop := ∃ m : ℕ, q = m / 2

theorem isHalfScore_add_one (q : ℚ) (h : isHalfScore q) :
    isHalfScore (q + 1) := by
  obtain ⟨m, rfl⟩ := h
  exact ⟨m + 2, by push_cast; ring⟩

theorem isHalfScore_penalty (q : ℚ) (h : isHalfScore q) :
    isHalfScore (max 0 (q - 1/2)) := by
  obtain ⟨m, rfl⟩ := h
  rcases m with _ | m
  · exact ⟨0, by norm_num⟩
  · refine ⟨m, ?_⟩
    have : ((m + 1 : ℕ) : ℚ) / 2 - 1/2 = (m : ℚ) / 2 := by
      push_cast
      ring
    rw [this, max_eq_right (by positivity)]

theorem processButtonEvent_score_cases (st : CtrlState) (now : ℚ)
    (rands : List ℕ) (e : InputEvent) :
    (processButtonEvent st now rands e).1.score = st.score ∨
    (processButtonEvent st now rands e).1.score = st.score + 1 ∨
    (processButtonEvent st now rands e).1.score =
      max 0 (st.score - 1/2) := by
  unfold processButtonEvent
  by_cases hk : isKeyDown e
  · rw [if_pos hk]
    rcases st.active_mole_light_index with _ | m <;>
      rcases KEY_TO_LIGHT_INDEX e.code with _ | p <;>
      simp only [spawn_next_mole]
    · exact Or.inl (by trivial)
    · exact Or.inl (by trivial)
    · exact Or.inl (by trivial)
    · split
      · exact Or.inr (Or.inl (by trivial))
      · exact Or.inr (Or.inr (by trivial))
  · rw [if_neg hk]
    exact Or.inl rfl

theorem processButtonEvent_score_half (st : CtrlState) (now : ℚ)
    (rands : List ℕ) (e : InputEvent) (h : isHalfScore st.score) :
    isHalfScore (processButtonEvent st now rands e).1.score := by
  rcases processButtonEvent_score_cases st now rands e with hc | hc | hc <;>
    rw [hc]
  · exact h
  · exact isHalfScore_add_one _ h
  · exact isHalfScore_penalty _ h

theorem processButtonEvents_score_half (now : ℚ) :
    ∀ (batch : List InputEvent) (st : CtrlState) (rands : List ℕ),
      isHalfScore st.score →
      isHalfScore (processButtonEvents st now rands batch).1.score := by
  intro batch
  induction batch with
  | nil => intro st rands h; exact h
  | cons e es ih =>
    intro st rands h
    exact ih _ _ (processButtonEvent_score_half st now rands e h)

theorem innerIter_score_half (st : CtrlState) (now ph : ℚ)
    (fleet : List EnemyShip) (rands : List ℕ)
    (polled : Option (List InputEvent)) (st' : CtrlState) (r' : List ℕ)
    (evs : List GEvent)
    (hc : innerIter st now ph fleet rands polled = .cont st' r' evs)
    (h : isHalfScore st.score) : isHalfScore st'.score := by
  rcases em (roundEndCheck st now ph fleet) with hend | hend
  · rw [(innerIter_ended_iff st now ph fleet rands polled).mpr hend] at hc
    exact absurd hc (by simp)
  · have htimer : isHalfScore (moleTimerStep st now rands).1.score := by
      rw [moleTimerStep_score]
      exact h
    by_cases ha : st.is_available
    · rcases polled with _ | batch
      · rw [innerIter_eq_no_input st now ph fleet rands none hend
          (Or.inr rfl)] at hc
        injection hc with h1 h2 h3
        rw [← h1]
        exact htimer
      · rw [innerIter_eq_input st now ph fleet rands batch hend ha] at hc
        injection hc with h1 h2 h3
        rw [← h1]
        exact processButtonEvents_score_half now batch _ _ htimer
    · rw [innerIter_eq_no_input st now ph fleet rands polled hend
        (Or.inl (by simpa using ha))] at hc
      injection hc with h1 h2 h3
      rw [← h1]
      exact htimer

theorem runRound_score_half :
    ∀ (inputs : List IterInput) (st : CtrlState) (rands : List ℕ),
      isHalfScore st.score →
      isHalfScore (runRound st rands inputs).1.score := by
  intro inputs
  induction inputs with
  | nil => intro st rands h; exact h
  | cons i is ih =>
    intro st rands h
    rw [runRound]
    rcases hc : innerIter st i.now i.playerHealth i.fleet rands i.polled with
      _ | ⟨st1, r1, evs1⟩
    · exact h
    · exact ih st1 r1
        (innerIter_score_half st i.now i.playerHealth i.fleet rands
          i.polled st1 r1 evs1 hc h)

/-- C10: the controller score starts at 0 and each input event either
leaves it unchanged, adds exactly 1, or applies the floored −1/2 step,
so at the end of any run it is a non-negative integer multiple of 1/2
(`m / 2` with `m : ℕ`); yet the consumer truncates the score attached
to `GAME_OVER` with `int()`, so a round ending on a half-point score
`k + 1/2` is reported as `k` — strictly below the exact score. -/
theorem c10_score_truncation (st : CtrlState) (now : ℚ)
    (rands : List ℕ) (e : InputEvent) (avail : Bool) (t0 : ℚ)
    (inputs : List IterInput) (q : ℚ) (l : ℤ) (k : ℕ) :
    ((processButtonEvent st now rands e).1.score = st.score ∨
      (processButtonEvent st now rands e).1.score = st.score + 1 ∨
      (processButtonEvent st now rands e).1.score =
        max 0 (st.score - 1/2)) ∧
    (∃ m : ℕ,
      (runRound (initialCtrl avail t0) rands inputs).1.score = m / 2) ∧
    gameOverScore (GEvent.gameOver q) l = pyInt q ∧
    pyInt (((2 * k + 1 : ℕ) : ℚ) / 2) = k ∧
    ((pyInt (((2 * k + 1 : ℕ) : ℚ) / 2) : ℚ) <
      ((2 * k + 1 : ℕ) : ℚ) / 2) := by
  have htrunc : pyInt (((2 * k + 1 : ℕ) : ℚ) / 2) = k := by
    have h0 : (0 : ℚ) ≤ ((2 * k + 1 : ℕ) : ℚ) / 2 := by positivity
    rw [pyInt, if_pos h0]
    have hh : ((2 * k + 1 : ℕ) : ℚ) / 2 = 1/2 + (k : ℕ) := by
      push_cast
      ring
    rw [hh, Int.floor_add_nat]
    norm_num
  refine ⟨processButtonEvent_score_cases st now rands e, ?_, rfl, htrunc,
    ?_⟩
  · exact runRound_score_half inputs (initialCtrl avail t0) rands
      ⟨0, by norm_num [initialCtrl]⟩
  · rw [htrunc]
    push_cast
    linarith
